import Mathlib

/-!
Verification of the snapshot-lifecycle layer of a LevelDB-backed key-value
store (package `leveldb` of the search-indexer repository).

The Go source keeps, inside a `DB` struct, a `closed` flag, the current
snapshot pointer `snap`, and a registry `activeSnaps` mapping live snapshot
pointers to lease counts.  We embed that state shallowly:

* a snapshot pointer (`*leveldb.Snapshot`) becomes `Handle := Option Nat`,
  with `none` playing the role of the nil pointer; fresh pointers handed out
  by the engine become fresh naturals drawn from a `nextId` counter;
* the Go map `activeSnaps` becomes an association list `Registry` with the
  usual map operations (`rfind`, `rset`, `rerase`), matching Go map
  semantics (missing key reads as the zero value with `exists = false`);
* engine-level effects that the claims talk about are recorded in the state:
  `engineReleased` lists the ids on which `snap.Release()` was called, and
  `dbSet` tracks whether the `d.db` field is non-nil;
* fallible engine primitives (snapshot creation, engine close, point reads,
  iterator errors) are passed in as explicit outcome parameters, since the
  engine is an external black box.

Every operation below is translated clause by clause from
`src/unnamed/part_000`.
-/

namespace SearchIndexer

/-- A snapshot handle, i.e. a possibly-nil `*leveldb.Snapshot`; `none` is nil. -/
abbrev Handle := Option Nat

/-- The `activeSnaps` map: an association list from handle to lease count. -/
abbrev Registry := List (Handle × Nat)

/-- Go map lookup: value of the first entry with the given key, if any. -/
def rfind : Registry → Handle → Option Nat
  | [], _ => none
  | (k, v) :: rest, h => if k = h then some v else rfind rest h

/-- Go map assignment `m[h] = c`: overwrite the entry if present, else append. -/
def rset : Registry → Handle → Nat → Registry
  | [], h, c => [(h, c)]
  | (k, v) :: rest, h, c => if k = h then (k, c) :: rest else (k, v) :: rset rest h c

/-- Go map `delete(m, h)`: drop the first entry with the given key. -/
def rerase : Registry → Handle → Registry
  | [], _ => []
  | (k, v) :: rest, h => if k = h then rest else (k, v) :: rerase rest h

/-- Well-formedness of the registry: its keys are pairwise distinct
(true of every Go map). -/
abbrev keysNodup (r : Registry) : Prop := (r.map Prod.fst).Nodup

/-- Every non-nil key of the registry carries an id below the bound
(the ids already handed out by the fresh-handle counter). -/
def keyBound (r : Registry) (n : Nat) : Prop :=
  ∀ s c, (some s, c) ∈ r → s < n

/-- Translation of `releaseSnapInternal`.  Given the registry and a handle it
returns the updated registry together with the id on which the engine-level
`snap.Release()` was invoked, if any.  Clause by clause from the source:
nil handle returns immediately; a present entry with count strictly above 1
is only decremented; otherwise `snap.Release()` is called and the entry is
deleted. -/
def releaseSnapInternal (r : Registry) (snap : Handle) : Registry × Option Nat :=
  match snap with
  | none => (r, none)
  | some s =>
    match rfind r (some s) with
    | some count =>
      if count > 1 then (rset r (some s) (count - 1), none)
      else (rerase r (some s), some s)
    | none => (rerase r (some s), some s)

/-- The mutable state of a `DB` value, together with the engine-effect log. -/
structure DB where
  closed : Bool
  dbSet : Bool
  snap : Handle
  activeSnaps : Registry
  engineReleased : List Nat
  nextId : Nat
deriving DecidableEq

/-- The error kinds surfaced by the facade (spec section 7). -/
inductive Err
  | alreadyClosed
  | snapshotsStillActive
  | closedStore
  | snapshotCreate
  | engineRead
  | engineClose
  | scanFailed
deriving DecidableEq

/-- Translation of `Close`.  `engineCloseOk` is the outcome of the engine
primitive `d.db.Close()`.  The Go method mutates the receiver and returns an
error; we return the error alongside the post-state. -/
def DB.close (d : DB) (engineCloseOk : Bool) : Option Err × DB :=
  if d.closed then (some .alreadyClosed, d)
  else if d.activeSnaps.length > 1 || (rfind d.activeSnaps d.snap).getD 0 > 1 then
    (some .snapshotsStillActive, d)
  else
    let rel := releaseSnapInternal d.activeSnaps d.snap
    let d1 : DB :=
      { d with
        activeSnaps := rel.1
        engineReleased := d.engineReleased ++ rel.2.toList
        snap := none
        closed := true }
    if d1.dbSet then
      if engineCloseOk then (none, { d1 with dbSet := false })
      else (some .engineClose, d1)
    else (none, d1)

/-- Translation of `TakeSnapshot`.  `engineSnapOk` is the outcome of the
engine primitive `d.db.GetSnapshot()`; on success the fresh snapshot pointer
is modelled by the fresh id `d.nextId`. -/
def DB.takeSnapshot (d : DB) (engineSnapOk : Bool) : Option Err × DB :=
  if d.closed then (some .closedStore, d)
  else if !engineSnapOk then (some .snapshotCreate, d)
  else
    let rel := releaseSnapInternal d.activeSnaps d.snap
    (none,
      { d with
        snap := some d.nextId
        activeSnaps := rset rel.1 (some d.nextId) 1
        engineReleased := d.engineReleased ++ rel.2.toList
        nextId := d.nextId + 1 })

/-- The caller-visible lease (`Snap` in the source): it stores the snapshot
handle, which the release closure sets to nil on first use.  The back
pointer to the store is left implicit (a single store is in scope). -/
structure Snap where
  snap : Handle
deriving DecidableEq

/-- Translation of `GetSnapshot`.  On a closed store it returns a nil lease
(the accompanying Go closure `func()` that does nothing is modelled by
`releaseFn none` below); on an open store it increments the registry count
of the current snapshot and hands out a lease bound to it. -/
def DB.getSnapshot (d : DB) : Option Snap × DB :=
  if d.closed then (none, d)
  else
    (some ⟨d.snap⟩,
      { d with
        activeSnaps := rset d.activeSnaps d.snap ((rfind d.activeSnaps d.snap).getD 0 + 1) })

/-- Translation of the release closure returned by `GetSnapshot` for a live
lease: it runs `releaseSnapInternal` on the lease's stored handle and then
clears the handle (`snap.snap = nil`). -/
def Snap.release (l : Snap) (d : DB) : DB × Snap :=
  let rel := releaseSnapInternal d.activeSnaps l.snap
  ({ d with
      activeSnaps := rel.1
      engineReleased := d.engineReleased ++ rel.2.toList },
    { snap := none })

/-- The release function paired with `GetSnapshot`'s result: for the nil
lease of the closed-store branch it is the do-nothing closure; for a live
lease it is `Snap.release`. -/
def releaseFn (l : Option Snap) (d : DB) : DB × Option Snap :=
  match l with
  | none => (d, none)
  | some s =>
    let r := Snap.release s d
    (r.1, some r.2)

/-- Byte strings are lists of bytes (modelled as naturals). -/
abbrev Bytes := List Nat

/-- The contents of the live engine: an association of keys to values. -/
abbrev EngineData := List (Bytes × Bytes)

/-- Outcome of the engine point read `d.db.Get(key, nil)`: a value, the
distinguished `leveldb.ErrNotFound`, or any other engine failure. -/
inductive GetOutcome
  | found (v : Bytes)
  | notFound
  | engineFail
deriving DecidableEq

/-- Translation of `Get`.  The closed check comes first; then the engine
outcome is dispatched exactly as in the source: `ErrNotFound` maps to the
`(nil, nil)` success pair, any other failure to a wrapped read error. -/
def DB.get (d : DB) (res : GetOutcome) : Option Bytes × Option Err :=
  if d.closed then (none, some .closedStore)
  else
    match res with
    | .notFound => (none, none)
    | .engineFail => (none, some .engineRead)
    | .found v => (some v, none)

/-- Lookup in the live engine data. -/
def engineLookup (live : EngineData) (k : Bytes) : Option Bytes :=
  match live with
  | [] => none
  | (k0, v0) :: rest => if k0 = k then some v0 else engineLookup rest k

/-- The outcome of a live-engine point read when the engine does not fail:
per the engine contract, `ErrNotFound` exactly when the key is absent. -/
def liveOutcome (live : EngineData) (k : Bytes) : GetOutcome :=
  match engineLookup live k with
  | some v => .found v
  | none => .notFound

/-- Boolean test that `p` is a byte-prefix of `k`. -/
def hasPfx : Bytes → Bytes → Bool
  | [], _ => true
  | _ :: _, [] => false
  | a :: as, b :: bs => a = b && hasPfx as bs

/-- Strict lexicographic order on byte strings (the engine's key order). -/
def bytesLt (a b : Bytes) : Prop := List.Lex (· < ·) a b

/-- The pair stream yielded by `d.db.NewIterator(util.BytesPrefix(pfx), nil)`:
per the engine contract, exactly the live pairs whose key extends the
prefix, in the engine's (already sorted) order. -/
def pfxStream (live : EngineData) (pfx : Bytes) : List (Bytes × Bytes) :=
  live.filter fun kv => hasPfx pfx kv.1

/-- The `for iter.Next()` loop of `Scan`: accumulates pairs, breaking once a
positive limit is reached.  The boolean records whether the loop consumed
the whole stream (i.e. `iter.Next()` was called past the last pair), which
is exactly when a terminal iterator error would have been observed by
`iter.Error()`. -/
def scanLoop (limit : Int) : List (Bytes × Bytes) → List (Bytes × Bytes) →
    List (Bytes × Bytes) × Bool
  | [], acc => (acc, true)
  | p :: rest, acc =>
    if 0 < limit && limit ≤ (acc.length : Int) then (acc, false)
    else scanLoop limit rest (acc ++ [p])

/-- Translation of `Scan`.  `stream` is the realized pair stream of the
prefix iterator and `iterErr` says whether that stream ends in an iterator
error rather than normal exhaustion; `iter.Error()` reports the error only
when the loop actually reached the end of the stream. -/
def DB.scan (d : DB) (stream : List (Bytes × Bytes)) (iterErr : Bool) (limit : Int) :
    List (Bytes × Bytes) × Option Err :=
  if d.closed then ([], some .closedStore)
  else
    let r := scanLoop limit stream []
    if iterErr && r.2 then ([], some .scanFailed)
    else (r.1, none)

/-- Lock flavours of the store's `sync.RWMutex`. -/
inductive LockMode
  | shared
  | exclusive
deriving DecidableEq

/-- The facade operations whose locking the spec describes. -/
inductive StoreOp
  | closeOp
  | takeSnapshotOp
  | getSnapshotOp
  | putOp
  | getOp
  | deleteOp
  | scanOp
  | commitOp
  | isClosedOp
deriving DecidableEq

/-- Modelled from the spec: `Batch.Commit` is part of this repository but its
source is not under src (only the `Batch` constructor is); spec section 5
lists Commit among the mutating operations that acquire the exclusive lock. -/
def commitLockMode : LockMode := .exclusive

/-- Which lock each method of the source acquires on `d.mutex`:
`Close`, `TakeSnapshot`, `GetSnapshot`, `Put` and `Delete` call
`d.mutex.Lock()` (exclusive); `Get`, `Scan` and `IsClosed` call
`d.mutex.RLock()` (shared).  `Commit` is taken from `commitLockMode`. -/
def lockModeOf : StoreOp → LockMode
  | .closeOp => .exclusive
  | .takeSnapshotOp => .exclusive
  | .getSnapshotOp => .exclusive
  | .putOp => .exclusive
  | .deleteOp => .exclusive
  | .commitOp => commitLockMode
  | .getOp => .shared
  | .scanOp => .shared
  | .isClosedOp => .shared

/-- Iterated `TakeSnapshot` with a succeeding engine, used to state the
lease-survival claim. -/
def iterTake : DB → Nat → DB
  | d, 0 => d
  | d, n + 1 => iterTake (DB.takeSnapshot d true).2 n

/-! Basic lemmas about the registry operations. -/

theorem rfind_rset_self (r : Registry) (h : Handle) (c : Nat) :
    rfind (rset r h c) h = some c := by
  induction r with
  | nil => simp [rset, rfind]
  | cons p rest ih =>
    obtain ⟨k, v⟩ := p
    by_cases hk : k = h
    · subst hk; simp [rset, rfind]
    · simp [rset, rfind, hk, ih]

theorem rfind_rset_ne (r : Registry) (h h' : Handle) (c : Nat) (hne : h' ≠ h) :
    rfind (rset r h c) h' = rfind r h' := by
  induction r with
  | nil => simp [rset, rfind, Ne.symm hne]
  | cons p rest ih =>
    obtain ⟨k, v⟩ := p
    by_cases hk : k = h
    · subst hk; simp [rset, rfind, Ne.symm hne]
    · simp [rset, rfind, hk, ih]

theorem rerase_sublist (r : Registry) (h : Handle) : List.Sublist (rerase r h) r := by
  induction r with
  | nil => simp [rerase]
  | cons p rest ih =>
    obtain ⟨k, v⟩ := p
    by_cases hk : k = h
    · subst hk; simp [rerase]
    · simpa [rerase, hk] using List.Sublist.cons₂ (k, v) ih

theorem rfind_rerase_ne (r : Registry) (h h' : Handle) (hne : h' ≠ h) :
    rfind (rerase r h) h' = rfind r h' := by
  induction r with
  | nil => simp [rerase]
  | cons p rest ih =>
    obtain ⟨k, v⟩ := p
    by_cases hk : k = h
    · subst hk; simp [rerase, rfind, Ne.symm hne]
    · simp [rerase, rfind, hk, ih]

theorem rfind_eq_none (r : Registry) (h : Handle) :
    rfind r h = none ↔ h ∉ r.map Prod.fst := by
  induction r with
  | nil => simp [rfind]
  | cons p rest ih =>
    obtain ⟨k, v⟩ := p
    by_cases hk : k = h
    · subst hk; simp [rfind]
    · simp [rfind, hk, ih, Ne.symm hk]

theorem rfind_mem (r : Registry) (h : Handle) (c : Nat) (hf : rfind r h = some c) :
    (h, c) ∈ r := by
  induction r with
  | nil => simp [rfind] at hf
  | cons p rest ih =>
    obtain ⟨k, v⟩ := p
    by_cases hk : k = h
    · subst hk
      simp [rfind] at hf
      subst hf
      exact List.mem_cons_self _ _
    · simp [rfind, hk] at hf
      exact List.mem_cons_of_mem _ (ih hf)

theorem rfind_rerase_self (r : Registry) (h : Handle) (hn : keysNodup r) :
    rfind (rerase r h) h = none := by
  induction r with
  | nil => simp [rerase, rfind]
  | cons p rest ih =>
    obtain ⟨k, v⟩ := p
    simp only [keysNodup, List.map_cons, List.nodup_cons] at hn
    by_cases hk : k = h
    · subst hk
      simpa [rerase, rfind_eq_none] using hn.1
    · simp [rerase, rfind, hk, ih hn.2]

theorem keys_rset_mem (r : Registry) (h : Handle) (c : Nat) (hm : h ∈ r.map Prod.fst) :
    (rset r h c).map Prod.fst = r.map Prod.fst := by
  induction r with
  | nil => simp at hm
  | cons p rest ih =>
    obtain ⟨k, v⟩ := p
    by_cases hk : k = h
    · subst hk; simp [rset]
    · have hm' : h ∈ rest.map Prod.fst := by
        rcases List.mem_cons.1 hm with h1 | h2
        · exact absurd h1.symm hk
        · exact h2
      simp [rset, hk, ih hm']

theorem keys_rset_not_mem (r : Registry) (h : Handle) (c : Nat) (hm : h ∉ r.map Prod.fst) :
    (rset r h c).map Prod.fst = r.map Prod.fst ++ [h] := by
  induction r with
  | nil => simp [rset]
  | cons p rest ih =>
    obtain ⟨k, v⟩ := p
    by_cases hk : k = h
    · exact absurd (by simp [hk]) hm
    · have hm' : h ∉ rest.map Prod.fst := fun hx => hm (by simp [hx])
      simp [rset, hk, ih hm']

theorem keysNodup_rset (r : Registry) (h : Handle) (c : Nat) (hn : keysNodup r) :
    keysNodup (rset r h c) := by
  by_cases hm : h ∈ r.map Prod.fst
  · rw [keysNodup, keys_rset_mem r h c hm]; exact hn
  · rw [keysNodup] at hn
    rw [keysNodup, keys_rset_not_mem r h c hm]
    simp [List.nodup_append, hn, hm]

theorem keysNodup_rerase (r : Registry) (h : Handle) (hn : keysNodup r) :
    keysNodup (rerase r h) :=
  List.Nodup.sublist (List.Sublist.map Prod.fst (rerase_sublist r h)) hn

theorem mem_rset (r : Registry) (h : Handle) (c : Nat) (p : Handle × Nat)
    (hp : p ∈ rset r h c) : p ∈ r ∨ p = (h, c) := by
  induction r with
  | nil => simpa [rset] using hp
  | cons q rest ih =>
    obtain ⟨k, v⟩ := q
    by_cases hk : k = h
    · subst hk
      rcases List.mem_cons.1 (by simpa [rset] using hp) with h1 | h2
      · right; exact h1
      · left; exact List.mem_cons_of_mem _ h2
    · rcases List.mem_cons.1 (by simpa [rset, hk] using hp) with h1 | h2
      · left; simp [h1]
      · rcases ih h2 with h3 | h4
        · left; exact List.mem_cons_of_mem _ h3
        · right; exact h4

theorem keyBound_mono (r : Registry) (m n : Nat) (hmn : m ≤ n) (hb : keyBound r m) :
    keyBound r n :=
  fun s c hm => lt_of_lt_of_le (hb s c hm) hmn

theorem keyBound_rset (r : Registry) (h : Handle) (c n : Nat) (hb : keyBound r n)
    (hh : ∀ s, h = some s → s < n) : keyBound (rset r h c) n := by
  intro s c' hm
  rcases mem_rset r h c _ hm with h1 | h2
  · exact hb s c' h1
  · have h3 : h = some s := by
      have := congrArg Prod.fst h2
      simpa using this.symm
    exact hh s h3

theorem keyBound_rerase (r : Registry) (h : Handle) (n : Nat) (hb : keyBound r n) :
    keyBound (rerase r h) n :=
  fun s c hm => hb s c (List.Sublist.subset (rerase_sublist r h) hm)

theorem keyBound_not_mem (r : Registry) (n : Nat) (hb : keyBound r n) :
    some n ∉ r.map Prod.fst := by
  intro hm
  rcases List.mem_map.1 hm with ⟨p, hp, hfst⟩
  obtain ⟨k, c⟩ := p
  simp only at hfst
  subst hfst
  exact absurd (hb n c hp) (lt_irrefl n)

/-! Lemmas about the scan accumulation loop. -/

theorem scanLoop_nonpos (limit : Int) (hl : ¬ 0 < limit) :
    ∀ (stream acc : List (Bytes × Bytes)), scanLoop limit stream acc = (acc ++ stream, true) := by
  intro stream
  induction stream with
  | nil => intro acc; simp [scanLoop]
  | cons p rest ih =>
    intro acc
    simp [scanLoop, hl, ih (acc ++ [p])]

theorem scanLoop_pos (limit : Int) (hl : 0 < limit) :
    ∀ (stream acc : List (Bytes × Bytes)),
      (scanLoop limit stream acc).1 = acc ++ stream.take (limit.toNat - acc.length) := by
  intro stream
  induction stream with
  | nil => intro acc; simp [scanLoop]
  | cons p rest ih =>
    intro acc
    by_cases hb : limit ≤ (acc.length : Int)
    · have h1 : limit.toNat ≤ acc.length := by omega
      simp [scanLoop, hl, hb, Nat.sub_eq_zero_of_le h1]
    · have hlen : acc.length < limit.toNat := by omega
      have h2 : limit.toNat - acc.length = (limit.toNat - (acc.length + 1)) + 1 := by omega
      have hcond : (decide (0 < limit) && decide (limit ≤ (acc.length : Int))) = false := by
        simp [hb]
      rw [scanLoop, hcond, if_neg (by simp), ih (acc ++ [p]), h2]
      simp [List.take_succ_cons, List.append_assoc]

/-! Concrete stores used to instantiate hypotheses. -/

/-- A freshly opened store: one current snapshot `some 0` with the self
reference count 1, next fresh id 1. -/
def dEx : DB :=
  { closed := false, dbSet := true, snap := some 0,
    activeSnaps := [(some 0, 1)], engineReleased := [], nextId := 1 }

/-- The store `dEx` with one outstanding caller lease on its current
snapshot. -/
def dBusy : DB :=
  { closed := false, dbSet := true, snap := some 0,
    activeSnaps := [(some 0, 2)], engineReleased := [], nextId := 1 }

/-- A store that has already been closed. -/
def dClosed : DB :=
  { closed := true, dbSet := true, snap := none,
    activeSnaps := [], engineReleased := [0], nextId := 1 }

/-! Claim C1. -/

/-- C1 counterexample: for the non-null handle `some 0`, absent from the
empty registry, release-or-decrement is not a no-op: it performs the
engine-level `snap.Release()` on that handle (the code only guards against
nil and against a present count above 1 before falling through to the
release branch). -/
theorem c1_absent_release_counterexample :
    (releaseSnapInternal [] (some 0)).2 = some 0 ∧
      ¬ (releaseSnapInternal [] (some 0)).2 = none := by
  constructor <;> decide

/-- C1 (amended): release-or-decrement of the registry behaves as follows.
A null handle is a no-op.  A handle present with count above 1 is only
decremented.  A handle present with count 1 — and likewise any non-null
handle absent from the registry — has its engine resources released and its
entry removed. -/
theorem c1_release_or_decrement (r : Registry) (h : Handle) :
    (h = none → releaseSnapInternal r h = (r, none)) ∧
    (∀ s c, h = some s → rfind r h = some c → 1 < c →
      releaseSnapInternal r h = (rset r h (c - 1), none)) ∧
    (∀ s c, h = some s → rfind r h = some c → c ≤ 1 →
      releaseSnapInternal r h = (rerase r h, some s)) ∧
    (∀ s, h = some s → rfind r h = none →
      releaseSnapInternal r h = (rerase r h, some s)) := by
  refine ⟨?_, ?_, ?_, ?_⟩
  · rintro rfl; rfl
  · rintro s c rfl hf hc
    simp [releaseSnapInternal, hf, hc]
  · rintro s c rfl hf hc
    have h1 : ¬ c > 1 := by omega
    simp [releaseSnapInternal, hf, h1]
  · rintro s rfl hf
    simp [releaseSnapInternal, hf]

theorem c1_release_or_decrement_witness :
    releaseSnapInternal [(some 5, 3)] (some 5) = ([(some 5, 2)], none) ∧
      releaseSnapInternal [(some 5, 1)] (some 5) = ([], some 5) ∧
      releaseSnapInternal [(some 7, 1)] none = ([(some 7, 1)], none) := by
  refine ⟨?_, ?_, ?_⟩
  · exact ((c1_release_or_decrement [(some 5, 3)] (some 5)).2.1 5 3 rfl (by decide)
      (by decide)).trans (by decide)
  · exact ((c1_release_or_decrement [(some 5, 1)] (some 5)).2.2.1 5 1 rfl (by decide)
      (by decide)).trans (by decide)
  · exact (c1_release_or_decrement [(some 7, 1)] none).1 rfl

/-! Claim C2. -/

/-- C2: `Close` fails with the already-closed error whenever the store is
closed; on an open store it fails with the snapshots-still-active error
exactly when the registry holds more than one distinct snapshot or the
current snapshot's lease count exceeds 1; otherwise it applies the
decrement-or-remove step to the current snapshot's self-reference, clears
`current`, marks the store closed, and closes the underlying engine. -/
theorem c2_close_spec (d : DB) (engineCloseOk : Bool) :
    (d.closed = true → DB.close d engineCloseOk = (some Err.alreadyClosed, d)) ∧
    (d.closed = false →
      ((DB.close d engineCloseOk).1 = some Err.snapshotsStillActive ↔
        1 < d.activeSnaps.length ∨ 1 < (rfind d.activeSnaps d.snap).getD 0)) ∧
    (d.closed = false →
      ¬ (1 < d.activeSnaps.length ∨ 1 < (rfind d.activeSnaps d.snap).getD 0) →
      d.dbSet = true → engineCloseOk = true →
      DB.close d engineCloseOk =
        (none,
          { d with
            activeSnaps := (releaseSnapInternal d.activeSnaps d.snap).1
            engineReleased := d.engineReleased ++ (releaseSnapInternal d.activeSnaps d.snap).2.toList
            snap := none
            closed := true
            dbSet := false })) := by
  refine ⟨?_, ?_, ?_⟩
  · intro hc
    simp [DB.close, hc]
  · intro hc
    by_cases hb : 1 < d.activeSnaps.length ∨ 1 < (rfind d.activeSnaps d.snap).getD 0
    · simp [DB.close, hc, hb]
    · constructor
      · intro hcl
        exfalso
        by_cases hdb : d.dbSet <;> by_cases hok : engineCloseOk = true <;>
          simp [DB.close, hc, hb, hdb, hok] at hcl
      · intro h1
        exact absurd h1 hb
  · intro hc hb hdb hok
    simp [DB.close, hc, hb, hdb, hok]

theorem c2_close_spec_witness :
    DB.close dEx true =
      (none,
        { closed := true, dbSet := false, snap := none, activeSnaps := [],
          engineReleased := [0], nextId := 1 }) ∧
    (DB.close dBusy true).1 = some Err.snapshotsStillActive := by
  constructor
  · exact ((c2_close_spec dEx true).2.2 rfl (by decide) rfl rfl).trans (by decide)
  · exact ((c2_close_spec dBusy true).2.1 rfl).2 (by decide)

/-! Claim C4. -/

/-- C4: for a lease handed out by `GetSnapshot`, the release closure clears
the lease's handle on its first invocation, and invoking it again later —
in any store state — changes nothing: the store is returned unchanged, so
no registry count is decremented and no engine resources are released. -/
theorem c4_release_idempotent (d0 d1 : DB) (l : Snap)
    (hopen : d0.closed = false) (hl : (d0.getSnapshot).1 = some l) :
    (Snap.release l d1).2.snap = none ∧
    (∀ d2 : DB, Snap.release (Snap.release l d1).2 d2 = (d2, { snap := none })) := by
  constructor
  · rfl
  · intro d2
    simp [Snap.release, releaseSnapInternal]

theorem c4_release_idempotent_witness :
    (Snap.release ⟨some 0⟩ dEx).2.snap = none ∧
    Snap.release (Snap.release ⟨some 0⟩ dEx).2 dEx = (dEx, { snap := none }) := by
  have h := c4_release_idempotent dEx dEx ⟨some 0⟩ rfl (by decide)
  exact ⟨h.1, h.2 dEx⟩

/-! Claim C5. -/

/-- C5: on a closed store `GetSnapshot` returns the nil lease, leaves the
state untouched, and the accompanying release function is a no-op; on an
open store it increments the current snapshot's registry count by exactly
one, touches no other registry entry, and returns a lease bound to the
current snapshot whose release function performs the decrement-or-remove
step on the registry. -/
theorem c5_getSnapshot_spec (d : DB) :
    (d.closed = true →
      d.getSnapshot = (none, d) ∧ ∀ d' : DB, releaseFn none d' = (d', none)) ∧
    (d.closed = false →
      (d.getSnapshot).1 = some ⟨d.snap⟩ ∧
      rfind (d.getSnapshot).2.activeSnaps d.snap
        = some ((rfind d.activeSnaps d.snap).getD 0 + 1) ∧
      (∀ h, h ≠ d.snap → rfind (d.getSnapshot).2.activeSnaps h = rfind d.activeSnaps h) ∧
      (d.getSnapshot).2.snap = d.snap ∧
      (d.getSnapshot).2.closed = false ∧
      (d.getSnapshot).2.engineReleased = d.engineReleased ∧
      (∀ d' : DB, (Snap.release ⟨d.snap⟩ d').1.activeSnaps
        = (releaseSnapInternal d'.activeSnaps d.snap).1)) := by
  constructor
  · intro hc
    exact ⟨by simp [DB.getSnapshot, hc], fun d' => rfl⟩
  · intro hc
    refine ⟨?_, ?_, ?_, ?_, ?_, ?_, ?_⟩
    · simp [DB.getSnapshot, hc]
    · simp [DB.getSnapshot, hc, rfind_rset_self]
    · intro h hne
      simp [DB.getSnapshot, hc, rfind_rset_ne _ _ _ _ hne]
    · simp [DB.getSnapshot, hc]
    · simp [DB.getSnapshot, hc]
    · simp [DB.getSnapshot, hc]
    · intro d'
      rfl

theorem c5_getSnapshot_spec_witness :
    (dEx.getSnapshot).1 = some ⟨some 0⟩ ∧
    rfind (dEx.getSnapshot).2.activeSnaps (some 0) = some 2 ∧
    (dClosed.getSnapshot).1 = none ∧
    releaseFn none dClosed = (dClosed, none) := by
  have h := (c5_getSnapshot_spec dEx).2 rfl
  have hcl := (c5_getSnapshot_spec dClosed).1 rfl
  refine ⟨h.1.trans (by decide), h.2.1.trans (by decide), ?_, hcl.2 dClosed⟩
  rw [hcl.1]

/-! Claim C6. -/

/-- C6: `TakeSnapshot` fails with the closed-store error on a closed store
and with the snapshot-creation error when the engine cannot create a
snapshot, in both cases leaving the store (hence the previous current
snapshot and its registry entry) entirely untouched; on success the old
current's self-reference is put through the decrement-or-remove step, and a
fresh snapshot is inserted into the registry with count exactly 1 and
becomes current. -/
theorem c6_takeSnapshot_spec (d : DB) (engineSnapOk : Bool) :
    (d.closed = true → d.takeSnapshot engineSnapOk = (some Err.closedStore, d)) ∧
    (d.closed = false → engineSnapOk = false →
      d.takeSnapshot engineSnapOk = (some Err.snapshotCreate, d)) ∧
    (d.closed = false → engineSnapOk = true →
      (d.takeSnapshot engineSnapOk).1 = none ∧
      (d.takeSnapshot engineSnapOk).2.snap = some d.nextId ∧
      (d.takeSnapshot engineSnapOk).2.activeSnaps
        = rset (releaseSnapInternal d.activeSnaps d.snap).1 (some d.nextId) 1 ∧
      rfind (d.takeSnapshot engineSnapOk).2.activeSnaps (some d.nextId) = some 1) := by
  refine ⟨?_, ?_, ?_⟩
  · intro hc
    simp [DB.takeSnapshot, hc]
  · intro hc hok
    simp [DB.takeSnapshot, hc, hok]
  · intro hc hok
    refine ⟨?_, ?_, ?_, ?_⟩ <;>
      simp [DB.takeSnapshot, hc, hok, rfind_rset_self]

theorem c6_takeSnapshot_spec_witness :
    (dEx.takeSnapshot true).1 = none ∧
    (dEx.takeSnapshot true).2.snap = some 1 ∧
    rfind (dEx.takeSnapshot true).2.activeSnaps (some 1) = some 1 ∧
    dClosed.takeSnapshot true = (some Err.closedStore, dClosed) ∧
    dEx.takeSnapshot false = (some Err.snapshotCreate, dEx) := by
  have h := (c6_takeSnapshot_spec dEx true).2.2 rfl rfl
  exact ⟨h.1, h.2.1, h.2.2.2, (c6_takeSnapshot_spec dClosed true).1 rfl,
    (c6_takeSnapshot_spec dEx false).2.1 rfl rfl⟩

/-! Claim C8. -/

/-- C8: `Get` fails with the closed-store error on a closed store; on an
open store it reads the live engine state — the result is fully determined
by the live data, independent of any snapshot the store holds — and an
absent key yields the not-found success pair, carrying no error, while any
other underlying failure yields the engine-read error. -/
theorem c8_get_spec (d : DB) :
    (d.closed = true → ∀ o : GetOutcome, d.get o = (none, some Err.closedStore)) ∧
    (d.closed = false →
      (∀ live k, d.get (liveOutcome live k) = (engineLookup live k, none)) ∧
      (∀ live k, engineLookup live k = none →
        d.get (liveOutcome live k) = (none, none)) ∧
      d.get GetOutcome.engineFail = (none, some Err.engineRead) ∧
      (∀ (o : GetOutcome) (d' : DB), d'.closed = false → d.get o = d'.get o)) := by
  constructor
  · intro hc o
    simp [DB.get, hc]
  · intro hc
    refine ⟨?_, ?_, ?_, ?_⟩
    · intro live k
      cases hl : engineLookup live k <;> simp [DB.get, liveOutcome, hc, hl]
    · intro live k hl
      simp [DB.get, liveOutcome, hc, hl]
    · simp [DB.get, hc]
    · intro o d' hc'
      simp [DB.get, hc, hc']

theorem c8_get_spec_witness :
    dEx.get (liveOutcome [([1], [7])] [2]) = (none, none) ∧
    dEx.get (liveOutcome [([1], [7])] [1]) = (some [7], none) ∧
    dEx.get GetOutcome.engineFail = (none, some Err.engineRead) ∧
    dClosed.get GetOutcome.notFound = (none, some Err.closedStore) := by
  have h := (c8_get_spec dEx).2 rfl
  exact ⟨h.2.1 [([1], [7])] [2] (by decide), (h.1 [([1], [7])] [1]).trans (by decide),
    h.2.2.1, (c8_get_spec dClosed).1 rfl GetOutcome.notFound⟩

/-! Claim C9. -/

/-- C9 counterexample: `GetSnapshot` acquires the exclusive lock
(`d.mutex.Lock()`), not a shared one, refuting the claim that Get, Scan and
GetSnapshot all take only the shared (read) lock. -/
theorem c9_getSnapshot_lock_counterexample :
    ¬ lockModeOf StoreOp.getSnapshotOp = LockMode.shared := by
  decide

/-- C9 (amended): `Get` and `Scan` acquire the shared lock, so such reads
may proceed concurrently; the mutating operations `Close`, `Put`, `Delete`,
`TakeSnapshot` and `Commit` acquire the exclusive lock; and `GetSnapshot`,
which mutates the registry, also acquires the exclusive lock rather than a
shared one. -/
theorem c9_lock_modes :
    lockModeOf StoreOp.getOp = LockMode.shared ∧
    lockModeOf StoreOp.scanOp = LockMode.shared ∧
    lockModeOf StoreOp.closeOp = LockMode.exclusive ∧
    lockModeOf StoreOp.putOp = LockMode.exclusive ∧
    lockModeOf StoreOp.deleteOp = LockMode.exclusive ∧
    lockModeOf StoreOp.takeSnapshotOp = LockMode.exclusive ∧
    lockModeOf StoreOp.commitOp = LockMode.exclusive ∧
    lockModeOf StoreOp.getSnapshotOp = LockMode.exclusive := by
  decide

/-! Claim C10. -/

/-- C10: `Close` is not atomic on engine failure.  When the underlying
engine close fails, `Close` returns the engine-close error, yet the store
has already been marked closed, `current` has been cleared, and the current
snapshot's self-reference has been put through the decrement-or-remove step
(releasing its engine resources when the count was 1); every subsequent
operation — another `Close`, `Get`, `TakeSnapshot`, `GetSnapshot` — then
fails as on a closed store, so the snapshot is not recoverable despite the
error return. -/
theorem c10_close_engine_failure (d : DB)
    (hopen : d.closed = false)
    (hno : ¬ (1 < d.activeSnaps.length ∨ 1 < (rfind d.activeSnaps d.snap).getD 0))
    (hdb : d.dbSet = true) :
    (DB.close d false).1 = some Err.engineClose ∧
    (DB.close d false).2.closed = true ∧
    (DB.close d false).2.snap = none ∧
    (DB.close d false).2.activeSnaps = (releaseSnapInternal d.activeSnaps d.snap).1 ∧
    (DB.close d false).2.engineReleased
      = d.engineReleased ++ (releaseSnapInternal d.activeSnaps d.snap).2.toList ∧
    (∀ ok : Bool, ((DB.close d false).2.close ok).1 = some Err.alreadyClosed) ∧
    (∀ o : GetOutcome, ((DB.close d false).2.get o).2 = some Err.closedStore) ∧
    ((DB.close d false).2.takeSnapshot true).1 = some Err.closedStore ∧
    ((DB.close d false).2.getSnapshot).1 = none := by
  have hpost : (DB.close d false).2.closed = true := by
    simp [DB.close, hopen, hno, hdb]
  refine ⟨?_, hpost, ?_, ?_, ?_, ?_, ?_, ?_, ?_⟩
  · simp [DB.close, hopen, hno, hdb]
  · simp [DB.close, hopen, hno, hdb]
  · simp [DB.close, hopen, hno, hdb]
  · simp [DB.close, hopen, hno, hdb]
  · intro ok
    simp [DB.close, hopen, hno, hdb]
  · intro o
    simp [DB.get, hpost]
  · simp [DB.takeSnapshot, hpost]
  · simp [DB.getSnapshot, hpost]

theorem c10_close_engine_failure_witness :
    (DB.close dEx false).1 = some Err.engineClose ∧
    (DB.close dEx false).2.closed = true ∧
    ((DB.close dEx false).2.takeSnapshot true).1 = some Err.closedStore := by
  have h := c10_close_engine_failure dEx rfl (by decide) rfl
  exact ⟨h.1, h.2.1, h.2.2.2.2.2.2.2.1⟩

/-! Claim C7. -/

instance : DecidableRel bytesLt := fun a b =>
  inferInstanceAs (Decidable (List.Lex (· < ·) a b))

instance : DecidableRel (fun (a b : Bytes × Bytes) => bytesLt a.1 b.1) := fun a b =>
  inferInstanceAs (Decidable (List.Lex (· < ·) a.1 b.1))

/-- Results of a clean scan: no error, and the accumulated pairs are the
whole stream, truncated to the first `limit` pairs when `limit` is
positive. -/
theorem scan_results (d : DB) (stream : List (Bytes × Bytes)) (limit : Int)
    (hopen : d.closed = false) :
    (d.scan stream false limit).2 = none ∧
    (d.scan stream false limit).1
      = if 0 < limit then stream.take limit.toNat else stream := by
  by_cases hl : 0 < limit
  · simp [DB.scan, hopen, hl, scanLoop_pos limit hl stream []]
  · simp [DB.scan, hopen, hl, scanLoop_nonpos limit hl stream []]

/-- C7: on an open store, when the prefix iteration completes without
reporting an error, `Scan` succeeds and returns exactly the live pairs
whose keys carry the prefix, in ascending key order — all of them when the
limit is zero or negative, and the first `limit` of them (hence at most
`limit` pairs) when the limit is positive.  When the iteration does report
an error (`iter.Error()` is observed after the loop consumed the stream),
the call fails with the scan error and every accumulated partial result is
discarded. -/
theorem c7_scan_spec (d : DB) (live : EngineData) (pfx : Bytes) (limit : Int) (iterErr : Bool)
    (hopen : d.closed = false)
    (hsorted : List.Pairwise (fun a b => bytesLt a.1 b.1) live) :
    (iterErr = false →
      (d.scan (pfxStream live pfx) iterErr limit).2 = none ∧
      (d.scan (pfxStream live pfx) iterErr limit).1
        = (if 0 < limit then (pfxStream live pfx).take limit.toNat else pfxStream live pfx) ∧
      (∀ kv ∈ (d.scan (pfxStream live pfx) iterErr limit).1, hasPfx pfx kv.1 = true) ∧
      List.Pairwise (fun a b => bytesLt a.1 b.1)
        (d.scan (pfxStream live pfx) iterErr limit).1 ∧
      (0 < limit →
        ((d.scan (pfxStream live pfx) iterErr limit).1.length : Int) ≤ limit)) ∧
    (iterErr = true → (scanLoop limit (pfxStream live pfx) []).2 = true →
      d.scan (pfxStream live pfx) iterErr limit = ([], some Err.scanFailed)) := by
  constructor
  · rintro rfl
    obtain ⟨herr, hres⟩ := scan_results d (pfxStream live pfx) limit hopen
    have hsubPfx : (d.scan (pfxStream live pfx) false limit).1.Sublist (pfxStream live pfx) := by
      rw [hres]
      by_cases hl : 0 < limit
      · simp [hl, List.take_sublist]
      · simp [hl]
    have hsubLive : (d.scan (pfxStream live pfx) false limit).1.Sublist live :=
      hsubPfx.trans (List.filter_sublist live)
    refine ⟨herr, hres, ?_, ?_, ?_⟩
    · intro kv hkv
      have hmem : kv ∈ pfxStream live pfx := hsubPfx.subset hkv
      exact (List.mem_filter.1 hmem).2
    · exact List.Pairwise.sublist hsubLive hsorted
    · intro hl
      have h1 : (d.scan (pfxStream live pfx) false limit).1.length ≤ limit.toNat := by
        rw [hres, if_pos hl]
        exact List.length_take_le _ _
      omega
  · rintro rfl hall
    simp [DB.scan, hopen, hall]

theorem c7_scan_spec_witness :
    dEx.scan (pfxStream [([1, 1], [10]), ([1, 2], [20]), ([1, 3], [30]), ([2], [40])] [1])
        false 2
      = ([([1, 1], [10]), ([1, 2], [20])], none) ∧
    dEx.scan (pfxStream [([1, 1], [10])] [1]) true 0 = ([], some Err.scanFailed) := by
  have h := (c7_scan_spec dEx [([1, 1], [10]), ([1, 2], [20]), ([1, 3], [30]), ([2], [40])]
    [1] 2 false rfl (by decide)).1 rfl
  have h2 := (c7_scan_spec dEx [([1, 1], [10])] [1] 0 true rfl (by decide)).2 rfl (by decide)
  constructor
  · have he := h.1
    have hr := h.2.1
    have hpair : dEx.scan
        (pfxStream [([1, 1], [10]), ([1, 2], [20]), ([1, 3], [30]), ([2], [40])] [1]) false 2
        = ((dEx.scan (pfxStream [([1, 1], [10]), ([1, 2], [20]), ([1, 3], [30]), ([2], [40])]
            [1]) false 2).1,
           (dEx.scan (pfxStream [([1, 1], [10]), ([1, 2], [20]), ([1, 3], [30]), ([2], [40])]
            [1]) false 2).2) := rfl
    rw [hpair, he, hr]
    decide
  · exact h2

/-! Claim C3. -/

/-- Success-branch equation for `TakeSnapshot` on an open store. -/
theorem takeSnapshot_open (d : DB) (hcl : d.closed = false) :
    (DB.takeSnapshot d true).2 =
      { d with
        snap := some d.nextId
        activeSnaps := rset (releaseSnapInternal d.activeSnaps d.snap).1 (some d.nextId) 1
        engineReleased := d.engineReleased ++ (releaseSnapInternal d.activeSnaps d.snap).2.toList
        nextId := d.nextId + 1 } := by
  simp [DB.takeSnapshot, hcl]

/-- Invariant maintained by the snapshot rotations performed while a lease
on snapshot `s0` is outstanding: after the k-th rotation (k at least 1) the
store is open, the current snapshot is the (k-1)-th fresh id with count 1,
the leased snapshot still has count 1, the registry stays well formed with
all ids below the fresh counter, and the engine releases performed since
the lease was taken never touched `s0`. -/
def takeInv (s0 n0 : Nat) (base : List Nat) (k : Nat) (d : DB) : Prop :=
  d.closed = false ∧
  d.snap = some (n0 + k - 1) ∧
  d.nextId = n0 + k ∧
  rfind d.activeSnaps (some s0) = some 1 ∧
  rfind d.activeSnaps (some (n0 + k - 1)) = some 1 ∧
  keysNodup d.activeSnaps ∧
  keyBound d.activeSnaps d.nextId ∧
  ∃ extra : List Nat, d.engineReleased = base ++ extra ∧ s0 ∉ extra

theorem takeInv_step (s0 n0 : Nat) (base : List Nat) (k : Nat) (d : DB)
    (hs0 : s0 < n0) (hk : 1 ≤ k) (hinv : takeInv s0 n0 base k d) :
    takeInv s0 n0 base (k + 1) (DB.takeSnapshot d true).2 := by
  obtain ⟨hcl, hsnap, hnext, hs, hcur, hnd, hbd, extra, hrel, hs0ex⟩ := hinv
  have hrel1 : releaseSnapInternal d.activeSnaps d.snap
      = (rerase d.activeSnaps (some (n0 + k - 1)), some (n0 + k - 1)) := by
    rw [hsnap]
    simp [releaseSnapInternal, hcur]
  rw [takeInv, takeSnapshot_open d hcl, hrel1, hnext]
  have hne1 : (some s0 : Handle) ≠ some (n0 + k) := by
    intro h; exact absurd (Option.some.inj h) (by omega)
  have hne2 : (some s0 : Handle) ≠ some (n0 + k - 1) := by
    intro h; exact absurd (Option.some.inj h) (by omega)
  refine ⟨hcl, ?_, ?_, ?_, ?_, ?_, ?_, ?_⟩
  · simp
  · show n0 + k + 1 = n0 + (k + 1)
    omega
  · simp only
    rw [rfind_rset_ne _ _ _ _ hne1, rfind_rerase_ne _ _ _ hne2]
    exact hs
  · simp only
    have h1 : n0 + (k + 1) - 1 = n0 + k := by omega
    rw [h1, rfind_rset_self]
  · simp only
    exact keysNodup_rset _ _ _ (keysNodup_rerase _ _ hnd)
  · simp only
    rw [hnext] at hbd
    refine keyBound_rset _ _ _ _ ?_ ?_
    · exact keyBound_mono _ _ _ (by omega) (keyBound_rerase _ _ _ hbd)
    · intro s hsx
      obtain rfl : n0 + k = s := Option.some.inj hsx
      omega
  · refine ⟨extra ++ [n0 + k - 1], ?_, ?_⟩
    · simp [hrel, List.append_assoc]
    · intro hmem
      rcases List.mem_append.1 hmem with h1 | h2
      · exact hs0ex h1
      · have := List.mem_singleton.1 h2
        omega

theorem takeInv_iter (s0 n0 : Nat) (base : List Nat) (k : Nat) (d : DB)
    (hs0 : s0 < n0) (hk : 1 ≤ k) (hinv : takeInv s0 n0 base k d) :
    ∀ m : Nat, takeInv s0 n0 base (k + m) (iterTake d m) := by
  intro m
  induction m generalizing k d with
  | zero => simpa [iterTake] using hinv
  | succ m ih =>
    have h1 := takeInv_step s0 n0 base k d hs0 hk hinv
    have h2 := ih (k + 1) _ (by omega) h1
    have he : iterTake d (m + 1) = iterTake (DB.takeSnapshot d true).2 m := rfl
    rw [he]
    have h3 : k + 1 + m = k + (m + 1) := by omega
    rwa [h3] at h2

/-- Shape of the state after `GetSnapshot` on the store of the C3 scenario:
only the current snapshot's count moves from 1 to 2. -/
theorem getSnapshot_open_shape (d0 : DB) (s0 : Nat)
    (hopen : d0.closed = false) (hsnap : d0.snap = some s0)
    (hcount : rfind d0.activeSnaps (some s0) = some 1) :
    (d0.getSnapshot).2 = { d0 with activeSnaps := rset d0.activeSnaps (some s0) 2 } := by
  simp [DB.getSnapshot, hopen, hsnap, hcount]

theorem takeInv_base (d0 : DB) (s0 : Nat)
    (hopen : d0.closed = false) (hsnap : d0.snap = some s0)
    (hcount : rfind d0.activeSnaps (some s0) = some 1)
    (hnd : keysNodup d0.activeSnaps) (hbd : keyBound d0.activeSnaps d0.nextId)
    (hs0 : s0 < d0.nextId) :
    takeInv s0 d0.nextId d0.engineReleased 1 (DB.takeSnapshot (d0.getSnapshot).2 true).2 := by
  have hgs := getSnapshot_open_shape d0 s0 hopen hsnap hcount
  have hf : rfind (rset d0.activeSnaps (some s0) 2) (some s0) = some 2 :=
    rfind_rset_self _ _ _
  have hstep : (DB.takeSnapshot (d0.getSnapshot).2 true).2 =
      { d0 with
        snap := some d0.nextId
        activeSnaps := rset (rset (rset d0.activeSnaps (some s0) 2) (some s0) 1)
          (some d0.nextId) 1
        nextId := d0.nextId + 1 } := by
    rw [hgs]
    simp [DB.takeSnapshot, hopen, releaseSnapInternal, hf, hsnap]
  rw [takeInv, hstep]
  have hne : (some s0 : Handle) ≠ some d0.nextId := by
    intro h; exact absurd (Option.some.inj h) (by omega)
  refine ⟨hopen, ?_, ?_, ?_, ?_, ?_, ?_, ⟨[], by simp, by simp⟩⟩
  · simp
  · simp
  · simp only
    rw [rfind_rset_ne _ _ _ _ hne, rfind_rset_self]
  · simp only
    have h1 : d0.nextId + 1 - 1 = d0.nextId := by omega
    rw [h1, rfind_rset_self]
  · simp only
    exact keysNodup_rset _ _ _ (keysNodup_rset _ _ _ (keysNodup_rset _ _ _ hnd))
  · simp only
    have hb1 : keyBound (rset d0.activeSnaps (some s0) 2) d0.nextId :=
      keyBound_rset _ _ _ _ hbd
        (fun s hs => by obtain rfl : s0 = s := Option.some.inj hs; exact hs0)
    have hb2 : keyBound (rset (rset d0.activeSnaps (some s0) 2) (some s0) 1) d0.nextId :=
      keyBound_rset _ _ _ _ hb1
        (fun s hs => by obtain rfl : s0 = s := Option.some.inj hs; exact hs0)
    exact keyBound_rset _ _ _ _ (keyBound_mono _ _ _ (by omega) hb2)
      (fun s hs => by obtain rfl : d0.nextId = s := Option.some.inj hs; omega)

/-- C3: acquire a lease on the current snapshot `s0` via `GetSnapshot` and
then call `TakeSnapshot` N times (N at least 1).  The lease is bound to
`s0`; throughout the rotations `s0` stays registered with a positive count
and its engine resources are never released, even though `current` has
advanced to the (N-1)-th fresh snapshot, which is distinct from `s0`.
Releasing the lease afterwards removes exactly `s0`'s registry entry,
releases its engine resources (the count having reached zero), and leaves
both the current snapshot and its registry count unchanged. -/
theorem c3_lease_survives_rotation (d0 : DB) (s0 : Nat) (N : Nat)
    (hopen : d0.closed = false)
    (hsnap : d0.snap = some s0)
    (hcount : rfind d0.activeSnaps (some s0) = some 1)
    (hnd : keysNodup d0.activeSnaps)
    (hbd : keyBound d0.activeSnaps d0.nextId)
    (hN : 1 ≤ N) :
    (d0.getSnapshot).1 = some ⟨some s0⟩ ∧
    (∀ k : Nat, ∃ c, 0 < c ∧
      rfind (iterTake (d0.getSnapshot).2 k).activeSnaps (some s0) = some c) ∧
    (iterTake (d0.getSnapshot).2 N).snap = some (d0.nextId + N - 1) ∧
    (iterTake (d0.getSnapshot).2 N).snap ≠ some s0 ∧
    (∃ extra : List Nat,
      (iterTake (d0.getSnapshot).2 N).engineReleased = d0.engineReleased ++ extra ∧
      s0 ∉ extra) ∧
    (Snap.release ⟨some s0⟩ (iterTake (d0.getSnapshot).2 N)).1.activeSnaps
      = rerase (iterTake (d0.getSnapshot).2 N).activeSnaps (some s0) ∧
    rfind (Snap.release ⟨some s0⟩ (iterTake (d0.getSnapshot).2 N)).1.activeSnaps (some s0)
      = none ∧
    (Snap.release ⟨some s0⟩ (iterTake (d0.getSnapshot).2 N)).1.engineReleased
      = (iterTake (d0.getSnapshot).2 N).engineReleased ++ [s0] ∧
    (Snap.release ⟨some s0⟩ (iterTake (d0.getSnapshot).2 N)).1.snap
      = (iterTake (d0.getSnapshot).2 N).snap ∧
    rfind (iterTake (d0.getSnapshot).2 N).activeSnaps
        (iterTake (d0.getSnapshot).2 N).snap = some 1 ∧
    rfind (Snap.release ⟨some s0⟩ (iterTake (d0.getSnapshot).2 N)).1.activeSnaps
        (iterTake (d0.getSnapshot).2 N).snap = some 1 := by
  have hs0 : s0 < d0.nextId := hbd s0 1 (rfind_mem _ _ _ hcount)
  have hbase := takeInv_base d0 s0 hopen hsnap hcount hnd hbd hs0
  have hiter := takeInv_iter s0 d0.nextId d0.engineReleased 1 _ hs0 (le_refl 1) hbase
  obtain ⟨m, rfl⟩ : ∃ m, N = m + 1 := ⟨N - 1, by omega⟩
  have hinvN : takeInv s0 d0.nextId d0.engineReleased (m + 1)
      (iterTake (d0.getSnapshot).2 (m + 1)) := by
    have he : iterTake (d0.getSnapshot).2 (m + 1)
        = iterTake (DB.takeSnapshot (d0.getSnapshot).2 true).2 m := rfl
    rw [he]
    have h2 := hiter m
    have h3 : 1 + m = m + 1 := by omega
    rwa [h3] at h2
  obtain ⟨hcl, hsnapN, hnextN, hsN, hcurN, hndN, hbdN, extra, hrelN, hs0ex⟩ := hinvN
  have hgs := getSnapshot_open_shape d0 s0 hopen hsnap hcount
  have hneCur : (iterTake (d0.getSnapshot).2 (m + 1)).snap ≠ some s0 := by
    rw [hsnapN]
    intro h
    exact absurd (Option.some.inj h) (by omega)
  have hrelease : releaseSnapInternal
        (iterTake (d0.getSnapshot).2 (m + 1)).activeSnaps (some s0)
      = (rerase (iterTake (d0.getSnapshot).2 (m + 1)).activeSnaps (some s0), some s0) := by
    simp [releaseSnapInternal, hsN]
  refine ⟨?_, ?_, hsnapN, hneCur, ⟨extra, hrelN, hs0ex⟩, ?_, ?_, ?_, ?_, ?_, ?_⟩
  · simp [DB.getSnapshot, hopen, hsnap]
  · intro k
    cases k with
    | zero =>
      refine ⟨2, by omega, ?_⟩
      simp only [iterTake]
      rw [hgs]
      exact rfind_rset_self _ _ _
    | succ j =>
      have he : iterTake (d0.getSnapshot).2 (j + 1)
          = iterTake (DB.takeSnapshot (d0.getSnapshot).2 true).2 j := rfl
      have h2 := hiter j
      have h3 : 1 + j = j + 1 := by omega
      rw [h3] at h2
      rw [he]
      exact ⟨1, by omega, h2.2.2.2.1⟩
  · simp [Snap.release, hrelease]
  · rw [show (Snap.release ⟨some s0⟩ (iterTake (d0.getSnapshot).2 (m + 1))).1.activeSnaps
        = rerase (iterTake (d0.getSnapshot).2 (m + 1)).activeSnaps (some s0) by
          simp [Snap.release, hrelease]]
    exact rfind_rerase_self _ _ hndN
  · simp [Snap.release, hrelease]
  · simp [Snap.release]
  · rw [hsnapN]
    have h1 : d0.nextId + (m + 1) - 1 = d0.nextId + m := by omega
    rw [h1]
    have h2 := hcurN
    rwa [h1] at h2
  · rw [show (Snap.release ⟨some s0⟩ (iterTake (d0.getSnapshot).2 (m + 1))).1.activeSnaps
        = rerase (iterTake (d0.getSnapshot).2 (m + 1)).activeSnaps (some s0) by
          simp [Snap.release, hrelease]]
    rw [rfind_rerase_ne _ _ _ hneCur]
    rw [hsnapN]
    have h1 : d0.nextId + (m + 1) - 1 = d0.nextId + m := by omega
    rw [h1]
    have h2 := hcurN
    rwa [h1] at h2

theorem c3_lease_survives_rotation_witness :
    (dEx.getSnapshot).1 = some ⟨some 0⟩ ∧
    (iterTake (dEx.getSnapshot).2 2).snap = some 2 ∧
    rfind (iterTake (dEx.getSnapshot).2 2).activeSnaps (some 0) = some 1 ∧
    rfind (Snap.release ⟨some 0⟩ (iterTake (dEx.getSnapshot).2 2)).1.activeSnaps (some 0)
      = none ∧
    (Snap.release ⟨some 0⟩ (iterTake (dEx.getSnapshot).2 2)).1.engineReleased
      = (iterTake (dEx.getSnapshot).2 2).engineReleased ++ [0] := by
  have h := c3_lease_survives_rotation dEx 0 2 rfl rfl (by decide) (by decide)
    (by intro s c hm; simp [dEx] at hm ⊢; omega) (by omega)
  obtain ⟨h1, h2, h3, h4, h5, h6, h7, h8, h9, h10, h11⟩ := h
  refine ⟨h1, h3.trans (by decide), ?_, h7, h8⟩
  obtain ⟨c, hc, hfind⟩ := h2 2
  have : c = 1 := by
    have hd : rfind (iterTake (dEx.getSnapshot).2 2).activeSnaps (some 0) = some 1 := by decide
    rw [hfind] at hd
    exact Option.some.inj hd
  rw [this] at hfind
  exact hfind

end SearchIndexer
